import Mathlib

/-!
Verification of `backend/train/run.py` from `dyn_flower_android_drf`.

The file embeds the module shallowly:
numpy tensors become `List ℚ`, the framework wire format `Parameters`
becomes a wrapper around a list of tensors, the external persistence
operation (`ModelParams.save`, defined outside this module) is an oracle
input of type `Except PyExn Unit`, and side effects (persistence calls,
channel replies, server launches, error logging) are returned explicitly
as trace values.
-/

/-- Tensor of model weights, a flattened numpy array with exact rational
entries. -/
abbrev NDArray := List ℚ

/-- Wire-format parameter set of the framework (`flwr.common.Parameters`).
Serialization is modelled as the identity wrapper around the tensor list,
which is faithful because the framework codec is injective and
`parameters_to_ndarrays` inverts `ndarrays_to_parameters`. -/
structure Parameters where
  tensors : List NDArray
deriving DecidableEq, Repr

/-- Modelled from the spec: `TFLiteModel` from `train.models` (not under
`src/`), the target mobile-model artifact; opaque reference identified by
an id. -/
structure TFLiteModel where
  id : ℕ
deriving DecidableEq, Repr

/-- Fit result submitted by one client: its parameters and the number of
local training examples (the used fields of `flwr.common.FitRes`). -/
structure FitRes where
  parameters : Parameters
  num_examples : ℕ
deriving DecidableEq, Repr

/-- Opaque client identifier (`flwr.server.client_proxy.ClientProxy`). -/
structure ClientProxy where
  cid : String
deriving DecidableEq, Repr

/-- One entry of the `failures` list: a failed (client, result) pair or a
raw exception. -/
inductive Failure
  | result (client : ClientProxy) (res : FitRes)
  | exn (name : String)
deriving DecidableEq, Repr

/-- Python exception kinds relevant to this module. -/
inductive PyExn
  | runtimeError (msg : String)
  | keyboardInterrupt
  | other (name : String)
deriving DecidableEq, Repr

/-- Metrics mapping returned by `aggregate_fit`; always empty here. -/
abbrev Metrics := List (String × ℤ)

/-- State of the `FedAvgAndroidSave` strategy: the `accept_failures` flag
inherited from `FedAvgAndroid` and the optional target model. -/
structure FedAvgAndroidSave where
  accept_failures : Bool
  model : Option TFLiteModel
deriving DecidableEq, Repr

/-- Decode the wire format into raw arrays
(`FedAvgAndroid.parameters_to_ndarrays`). -/
def parameters_to_ndarrays (p : Parameters) : List NDArray :=
  p.tensors

/-- Encode raw arrays into the wire format
(`FedAvgAndroid.ndarrays_to_parameters`). -/
def ndarrays_to_parameters (nds : List NDArray) : Parameters :=
  ⟨nds⟩

/-- Python `zip(*ls)`: transpose truncated to the shortest row; empty for
no rows. -/
def pyZip {α : Type} [Inhabited α] (ls : List (List α)) : List (List α) :=
  match ls with
  | [] => []
  | l :: rest =>
      let m := rest.foldl (fun acc x => min acc x.length) l.length
      (List.range m).map (fun i => (l :: rest).map (fun w => w.getD i default))

/-- Elementwise `np.add` on two tensors (equal shapes in all uses here). -/
def npAdd (a b : NDArray) : NDArray :=
  List.zipWith (fun x y => x + y) a b

/-- Python `reduce(np.add, vs)`: first element, then fold the rest.
Never applied to an empty list by the code. -/
def npReduceAdd : List NDArray → NDArray
  | [] => []
  | v :: vs => vs.foldl npAdd v

/-- Elementwise division of a tensor by a scalar. -/
def npDivScalar (v : NDArray) (c : ℚ) : NDArray :=
  v.map (fun x => x / c)

/-- Modelled from the spec: the external weighted-average aggregation
function (`flwr.server.strategy.aggregate.aggregate`, an out-of-scope
collaborator in the spec), transcribed from the framework standard
implementation: scale each client tensor list by its example count,
transpose, sum per layer, divide by the total example count. -/
def aggregate (results : List (List NDArray × ℕ)) : List NDArray :=
  let num_examples_total : ℕ := (results.map Prod.snd).sum
  let weighted_weights : List (List NDArray) :=
    results.map (fun p => p.1.map (fun layer => layer.map (fun x => x * (p.2 : ℚ))))
  (pyZip weighted_weights).map
    (fun layer_updates => npDivScalar (npReduceAdd layer_updates) (num_examples_total : ℚ))

/-- Trace of one `save_params` call: whether the `ModelParams` binding was
constructed (and hence its save invoked), and whether an error was logged. -/
structure SaveTrace where
  bindingConstructed : Bool
  errorLogged : Bool
deriving DecidableEq, Repr

/-- Embedding of `FedAvgAndroidSave.save_params`. The outcome of the
external `ModelParams.save` call is the oracle `saveResult`; a
`RuntimeError` outcome is caught and logged, any other exception
propagates. -/
def save_params (s : FedAvgAndroidSave) (ps : List NDArray)
    (saveResult : Except PyExn Unit) : Except PyExn SaveTrace :=
  match s.model with
  | none => .ok ⟨false, false⟩
  | some _ =>
      match saveResult with
      | .ok _ => .ok ⟨true, false⟩
      | .error (.runtimeError _) => .ok ⟨true, true⟩
      | .error e => .error e

/-- Embedding of `FedAvgAndroidSave.aggregate_fit`. Returns the framework
result pair together with the `save_params` trace (`none` when
`save_params` was never called). The `ps` argument of the oracle is fixed
by the averaged arrays computed inside. -/
def aggregate_fit (s : FedAvgAndroidSave) (server_round : ℕ)
    (results : List (ClientProxy × FitRes)) (failures : List Failure)
    (saveResult : Except PyExn Unit) :
    Except PyExn ((Option Parameters × Metrics) × Option SaveTrace) :=
  if results = [] then .ok ((none, []), none)
  else if s.accept_failures = false ∧ failures ≠ [] then .ok ((none, []), none)
  else
    let weights_results : List (List NDArray × ℕ) :=
      results.map (fun p => (parameters_to_ndarrays p.2.parameters, p.2.num_examples))
    let aggregated := aggregate weights_results
    match save_params s aggregated saveResult with
    | .error e => .error e
    | .ok tr => .ok ((some (ndarrays_to_parameters aggregated), []), some tr)

/-- Embedding of `fit_config`: the per-round training configuration. -/
def fit_config (server_round : ℕ) : List (String × ℕ) :=
  [("batch_size", 32), ("local_epochs", 5)]

/-- Payload of a channel command: a recognized model reference, Python
`None`, or anything else. -/
inductive Payload
  | model (m : TFLiteModel)
  | noneP
  | other (v : String)
deriving DecidableEq, Repr

/-- Observable effect of one `execute` call: the single reply sent on the
channel, the server launch (`some arg` means `server(arg)` was called,
with `arg` the optional model), and whether an error-level log was
emitted. -/
structure ExecEffect where
  reply : String
  launched : Option (Option TFLiteModel)
  errorLogged : Bool
deriving DecidableEq, Repr

/-- Embedding of `execute` applied to the one `(kind, msg)` pair read from
the channel. -/
def execute (kind : String) (msg : Payload) : ExecEffect :=
  if kind = "ping" then ⟨"pong", none, false⟩
  else if kind = "server" then
    match msg with
    | .model m => ⟨"done", some (some m), false⟩
    | .noneP => ⟨"done", some none, false⟩
    | .other _ => ⟨"done", some none, true⟩
  else ⟨"cannot understand", none, true⟩

/-- Outcome of one `execute` iteration inside the `run` loop: it either
completes normally or raises an exception (from the channel read or the
body). -/
inductive ExecOutcome
  | normal
  | raises (e : PyExn)
deriving DecidableEq, Repr

/-- Result of running the `run` loop against a finite prefix of iteration
outcomes: still looping, returned normally via `break`, or terminated by
a propagating exception. -/
inductive RunResult
  | stillRunning
  | returned
  | raised (e : PyExn)
deriving DecidableEq, Repr

/-- Embedding of `run`: loop `execute` forever, `break` on
`KeyboardInterrupt`, propagate every other exception. -/
def run : List ExecOutcome → RunResult
  | [] => .stillRunning
  | .normal :: rest => run rest
  | .raises e :: _ =>
      if e = .keyboardInterrupt then .returned else .raised e

/-- Converted results, as built inside `aggregate_fit`: each client
parameter set decoded to raw arrays and paired with its example count. -/
def weights_results (results : List (ClientProxy × FitRes)) :
    List (List NDArray × ℕ) :=
  results.map (fun p => (parameters_to_ndarrays p.2.parameters, p.2.num_examples))

/-- Concrete two-client round used as a witness input: client c0 submits
tensor [1, 2] with 1 example, client c1 submits [4, 8] with 3 examples. -/
def resultsExample : List (ClientProxy × FitRes) :=
  [(⟨"c0"⟩, ⟨⟨[[1, 2]]⟩, 1⟩), (⟨"c1"⟩, ⟨⟨[[4, 8]]⟩, 3⟩)]

/-- Example-count-weighted average at tensor `t`, position `j`, written
independently from the spec sentence: the sum of each client value scaled
by its example count, divided by the total example count. -/
def weightedAvgAt (results : List (List NDArray × ℕ)) (t j : ℕ) : ℚ :=
  (results.map (fun p => (p.2 : ℚ) * ((p.1.getD t []).getD j 0))).sum
    / (((results.map Prod.snd).sum : ℕ) : ℚ)

/-- C7: `fit_config` returns batch size 32 and 5 local epochs for every
round number; the schedule does not vary by round. -/
theorem fit_config_constant (r : ℕ) :
    fit_config r = [("batch_size", 32), ("local_epochs", 5)] := rfl

/-- C10: `aggregate_fit` does not read the round number: its result is the
same for any two rounds on identical remaining inputs. -/
theorem aggregate_fit_round_independent (s : FedAvgAndroidSave) (r1 r2 : ℕ)
    (results : List (ClientProxy × FitRes)) (failures : List Failure)
    (saveResult : Except PyExn Unit) :
    aggregate_fit s r1 results failures saveResult
      = aggregate_fit s r2 results failures saveResult := rfl

lemma run_of_all_normal (tr : List ExecOutcome)
    (h : ∀ o ∈ tr, o = ExecOutcome.normal) : run tr = RunResult.stillRunning := by
  induction tr with
  | nil => rfl
  | cons o rest ih =>
      have ho : o = ExecOutcome.normal := h o (by simp)
      subst ho
      simp only [run]
      exact ih (fun o hmem => h o (by simp [hmem]))

lemma run_append_of_normal (pre tr : List ExecOutcome)
    (h : ∀ o ∈ pre, o = ExecOutcome.normal) : run (pre ++ tr) = run tr := by
  induction pre with
  | nil => rfl
  | cons o rest ih =>
      have ho : o = ExecOutcome.normal := h o (by simp)
      subst ho
      simp only [List.cons_append, run]
      exact ih (fun o hmem => h o (by simp [hmem]))

lemma run_never_raises_keyboardInterrupt (tr : List ExecOutcome) :
    run tr ≠ RunResult.raised PyExn.keyboardInterrupt := by
  induction tr with
  | nil => simp [run]
  | cons o rest ih =>
      cases o with
      | normal => simpa [run] using ih
      | raises e =>
          by_cases he : e = PyExn.keyboardInterrupt
          · simp [run, he]
          · simp [run, he]

/-- C6: `run` loops `execute` indefinitely while iterations complete
normally; a `KeyboardInterrupt` raised in an iteration breaks the loop and
`run` returns normally; any other exception raised in an iteration
propagates out of `run`; and no execution of `run` ever propagates a
`KeyboardInterrupt` (no other exit path exists). -/
theorem run_exit_paths :
    (∀ tr, (∀ o ∈ tr, o = ExecOutcome.normal) → run tr = RunResult.stillRunning)
  ∧ (∀ pre tr, (∀ o ∈ pre, o = ExecOutcome.normal) →
      run (pre ++ ExecOutcome.raises PyExn.keyboardInterrupt :: tr) = RunResult.returned)
  ∧ (∀ pre tr e, (∀ o ∈ pre, o = ExecOutcome.normal) → e ≠ PyExn.keyboardInterrupt →
      run (pre ++ ExecOutcome.raises e :: tr) = RunResult.raised e)
  ∧ (∀ tr, run tr ≠ RunResult.raised PyExn.keyboardInterrupt) := by
  refine ⟨run_of_all_normal, ?_, ?_, run_never_raises_keyboardInterrupt⟩
  · intro pre tr h
    rw [run_append_of_normal pre _ h]
    simp [run]
  · intro pre tr e h he
    rw [run_append_of_normal pre _ h]
    simp [run, he]

/-- Witness for C6 at concrete traces: one normal iteration followed by a
`KeyboardInterrupt` returns, and a `ValueError` in the second iteration
propagates. -/
theorem run_exit_paths_witness :
    run [ExecOutcome.normal, ExecOutcome.raises PyExn.keyboardInterrupt]
      = RunResult.returned
  ∧ run [ExecOutcome.normal, ExecOutcome.raises (PyExn.other "ValueError")]
      = RunResult.raised (PyExn.other "ValueError") := by
  constructor
  · simpa using run_exit_paths.2.1 [ExecOutcome.normal] []
      (by intro o ho; simpa using ho)
  · simpa using run_exit_paths.2.2.1 [ExecOutcome.normal] [] (PyExn.other "ValueError")
      (by intro o ho; simpa using ho) (by decide)

/-- C4: `execute` is a total function of the pair read, so it sends exactly
one reply and raises nothing; kind "ping" replies "pong", and any kind
other than "ping" and "server" replies "cannot understand" without
launching the server. -/
theorem execute_one_reply (kind : String) (msg : Payload) :
    (kind = "ping" → execute kind msg = ⟨"pong", none, false⟩)
  ∧ (kind ≠ "ping" → kind ≠ "server" →
      execute kind msg = ⟨"cannot understand", none, true⟩) := by
  constructor
  · intro h
    simp [execute, h]
  · intro h1 h2
    simp [execute, h1, h2]

/-- Witness for C4: the spec scenario, kind "bogus" with payload 42. -/
theorem execute_one_reply_witness :
    execute "bogus" (Payload.other "42") = ⟨"cannot understand", none, true⟩ :=
  (execute_one_reply "bogus" (Payload.other "42")).2 (by decide) (by decide)

/-- C5: for kind "server", a recognized model reference launches the
bootstrap with that model and no error log, a null payload launches it with
no model and no error log, and a non-null unrecognized payload logs an
error and launches it with no model; every case replies "done". -/
theorem execute_server_cases (m : TFLiteModel) (v : String) :
    execute "server" (Payload.model m) = ⟨"done", some (some m), false⟩
  ∧ execute "server" Payload.noneP = ⟨"done", some none, false⟩
  ∧ execute "server" (Payload.other v) = ⟨"done", some none, true⟩ := by
  refine ⟨?_, ?_, ?_⟩ <;> simp [execute]

/-- C2: with empty `results`, or with non-empty `failures` while failure
acceptance is disabled, `aggregate_fit` returns `(None, \x7b\x7d)` and the
`save_params` trace is `none`: no persistence call happens on these paths. -/
theorem aggregate_fit_guard_paths (s : FedAvgAndroidSave) (r : ℕ)
    (results : List (ClientProxy × FitRes)) (failures : List Failure)
    (saveResult : Except PyExn Unit) :
    (results = [] →
      aggregate_fit s r results failures saveResult = .ok ((none, []), none))
  ∧ (s.accept_failures = false → failures ≠ [] →
      aggregate_fit s r results failures saveResult = .ok ((none, []), none)) := by
  constructor
  · intro h
    simp [aggregate_fit, h]
  · intro h1 h2
    by_cases hr : results = []
    · simp [aggregate_fit, hr]
    · simp [aggregate_fit, hr, h1, h2]

/-- Witness for C2: both guard paths at concrete inputs. -/
theorem aggregate_fit_guard_paths_witness :
    aggregate_fit ⟨true, none⟩ 1 [] [] (.ok ()) = .ok ((none, []), none)
  ∧ aggregate_fit ⟨false, none⟩ 1 [(⟨"c0"⟩, ⟨⟨[[1]]⟩, 2⟩)] [Failure.exn "E"] (.ok ())
      = .ok ((none, []), none) :=
  ⟨(aggregate_fit_guard_paths ⟨true, none⟩ 1 [] [] (.ok ())).1 rfl,
   (aggregate_fit_guard_paths ⟨false, none⟩ 1 [(⟨"c0"⟩, ⟨⟨[[1]]⟩, 2⟩)]
      [Failure.exn "E"] (.ok ())).2 rfl (by simp)⟩

/-- C8: when no target model is configured, `save_params` returns without
raising, with a trace showing that no `ModelParams` binding was constructed
and nothing was logged, whatever the oracle save outcome would have been. -/
theorem save_params_noop_without_model (s : FedAvgAndroidSave)
    (ps : List NDArray) (saveResult : Except PyExn Unit)
    (h : s.model = none) :
    save_params s ps saveResult = .ok ⟨false, false⟩ := by
  simp [save_params, h]

/-- Witness for C8 at a concrete strategy without a model, with an oracle
that would have failed had it been consulted. -/
theorem save_params_noop_without_model_witness :
    save_params ⟨true, none⟩ [[1, 2]] (.error (.other "OSError"))
      = .ok ⟨false, false⟩ :=
  save_params_noop_without_model ⟨true, none⟩ [[1, 2]]
    (.error (.other "OSError")) rfl

/-- C9: only `RuntimeError` is intercepted in `save_params`: an exception
of any other kind raised by the save operation propagates to the caller,
and `aggregate_fit` then does not return a result pair for the round. -/
theorem save_params_propagates_non_runtime (s : FedAvgAndroidSave)
    (ps : List NDArray) (e : PyExn) (m : TFLiteModel) (r : ℕ)
    (results : List (ClientProxy × FitRes)) (failures : List Failure)
    (hm : s.model = some m) (he : ∀ msg, e ≠ PyExn.runtimeError msg)
    (hne : results ≠ []) (hacc : failures = [] ∨ s.accept_failures = true) :
    save_params s ps (.error e) = .error e
  ∧ aggregate_fit s r results failures (.error e) = .error e := by
  have hsp : ∀ q : List NDArray, save_params s q (.error e) = .error e := by
    intro q
    cases e with
    | runtimeError msg => exact absurd rfl (he msg)
    | keyboardInterrupt => simp [save_params, hm]
    | other n => simp [save_params, hm]
  have hcond : ¬(s.accept_failures = false ∧ failures ≠ []) := by
    rintro ⟨hf, hnf⟩
    rcases hacc with h | h
    · exact hnf h
    · rw [h] at hf
      exact Bool.noConfusion hf
  refine ⟨hsp ps, ?_⟩
  simp only [aggregate_fit, if_neg hne, if_neg hcond, hsp]

/-- Witness for C9: a `TypeError` from the save operation propagates out
of both `save_params` and `aggregate_fit`. -/
theorem save_params_propagates_non_runtime_witness :
    save_params ⟨true, some ⟨0⟩⟩ [[1]] (.error (.other "TypeError"))
      = .error (.other "TypeError")
  ∧ aggregate_fit ⟨true, some ⟨0⟩⟩ 1 [(⟨"c0"⟩, ⟨⟨[[1]]⟩, 2⟩)] []
      (.error (.other "TypeError")) = .error (.other "TypeError") :=
  save_params_propagates_non_runtime ⟨true, some ⟨0⟩⟩ [[1]]
    (.other "TypeError") ⟨0⟩ 1 [(⟨"c0"⟩, ⟨⟨[[1]]⟩, 2⟩)] [] rfl
    (fun msg h => PyExn.noConfusion h) (by simp) (Or.inl rfl)

/-- C3: a `RuntimeError` from the save operation is caught and logged
inside `save_params` (which returns normally with the error marked as
logged), and `aggregate_fit` still returns the averaged parameters,
re-encoded, with empty metrics: the failed save changes neither the
control flow nor the return value of the round. -/
theorem aggregate_fit_save_error_caught (s : FedAvgAndroidSave) (r : ℕ)
    (results : List (ClientProxy × FitRes)) (failures : List Failure)
    (ps : List NDArray) (m : TFLiteModel) (msg : String)
    (hm : s.model = some m) (hne : results ≠ [])
    (hacc : failures = [] ∨ s.accept_failures = true) :
    save_params s ps (.error (.runtimeError msg)) = .ok ⟨true, true⟩
  ∧ aggregate_fit s r results failures (.error (.runtimeError msg))
      = .ok ((some (ndarrays_to_parameters (aggregate (results.map
          (fun p => (parameters_to_ndarrays p.2.parameters, p.2.num_examples))))),
          []), some ⟨true, true⟩) := by
  have hsp : ∀ q : List NDArray,
      save_params s q (.error (.runtimeError msg)) = .ok ⟨true, true⟩ := by
    intro q
    simp [save_params, hm]
  have hcond : ¬(s.accept_failures = false ∧ failures ≠ []) := by
    rintro ⟨hf, hnf⟩
    rcases hacc with h | h
    · exact hnf h
    · rw [h] at hf
      exact Bool.noConfusion hf
  refine ⟨hsp ps, ?_⟩
  simp only [aggregate_fit, if_neg hne, if_neg hcond, hsp]

/-- Witness for C3: one client, a failing save; `aggregate_fit` still
returns the (trivially) averaged parameters and marks the error logged. -/
theorem aggregate_fit_save_error_caught_witness :
    save_params ⟨true, some ⟨0⟩⟩ [[1]] (.error (.runtimeError "shape mismatch"))
      = .ok ⟨true, true⟩
  ∧ aggregate_fit ⟨true, some ⟨0⟩⟩ 1 [(⟨"c0"⟩, ⟨⟨[[1]]⟩, 2⟩)] []
      (.error (.runtimeError "shape mismatch"))
      = .ok ((some (ndarrays_to_parameters (aggregate (([(⟨"c0"⟩, ⟨⟨[[1]]⟩, 2⟩)] :
            List (ClientProxy × FitRes)).map
          (fun p => (parameters_to_ndarrays p.2.parameters, p.2.num_examples))))),
          []), some ⟨true, true⟩) :=
  aggregate_fit_save_error_caught ⟨true, some ⟨0⟩⟩ 1
    [(⟨"c0"⟩, ⟨⟨[[1]]⟩, 2⟩)] [] [[1]] ⟨0⟩ "shape mismatch" rfl (by simp)
    (Or.inl rfl)

lemma foldl_min_eq_of_const (ws : List (List NDArray)) (T : ℕ)
    (h : ∀ w ∈ ws, w.length = T) :
    ws.foldl (fun acc x => min acc x.length) T = T := by
  induction ws with
  | nil => rfl
  | cons w ws ih =>
      simp only [List.foldl_cons, h w (by simp), min_self]
      exact ih (fun w hw => h w (by simp [hw]))

lemma pyZip_uniform (ls : List (List NDArray)) (T : ℕ) (hne : ls ≠ [])
    (h : ∀ w ∈ ls, w.length = T) :
    pyZip ls = (List.range T).map (fun i => ls.map (fun w => w.getD i default)) := by
  match ls, hne with
  | l :: rest, _ =>
      show (List.range (rest.foldl (fun acc x => min acc x.length) l.length)).map _ = _
      rw [h l (by simp), foldl_min_eq_of_const rest T (fun w hw => h w (by simp [hw]))]

lemma getD_map_of_lt {α β : Type} (l : List α) (f : α → β) (t : ℕ)
    (d : β) (d2 : α) (h : t < l.length) :
    (l.map f).getD t d = f (l.getD t d2) := by
  rw [List.getD_eq_getElem?_getD, List.getElem?_map,
    List.getElem?_eq_getElem h, List.getD_eq_getElem?_getD,
    List.getElem?_eq_getElem h]
  rfl

lemma getD_map_mul (l : List ℚ) (c : ℚ) (j : ℕ) :
    (l.map (fun x => x * c)).getD j 0 = l.getD j 0 * c := by
  rw [List.getD_eq_getElem?_getD, List.getElem?_map, List.getD_eq_getElem?_getD]
  cases l[j]? with
  | none => simp
  | some x => rfl

lemma getD_npDivScalar (v : NDArray) (c : ℚ) (j : ℕ) :
    (npDivScalar v c).getD j 0 = v.getD j 0 / c := by
  unfold npDivScalar
  rw [List.getD_eq_getElem?_getD, List.getElem?_map, List.getD_eq_getElem?_getD]
  cases v[j]? with
  | none => simp
  | some x => rfl

lemma getD_npAdd (a b : NDArray) (h : a.length = b.length) (j : ℕ) :
    (npAdd a b).getD j 0 = a.getD j 0 + b.getD j 0 := by
  induction a generalizing b j with
  | nil =>
      cases b with
      | nil => simp [npAdd]
      | cons y ys => simp at h
  | cons x xs ih =>
      cases b with
      | nil => simp at h
      | cons y ys =>
          cases j with
          | zero => simp [npAdd]
          | succ j =>
              have hb : xs.length = ys.length := by simpa using h
              simpa [npAdd, List.getD_cons_succ] using ih ys hb j

lemma length_npAdd (a b : NDArray) : (npAdd a b).length = min a.length b.length :=
  List.length_zipWith _ a b

lemma foldl_npAdd_spec (vs : List NDArray) (n : ℕ) :
    ∀ acc : NDArray, acc.length = n → (∀ v ∈ vs, v.length = n) →
    (vs.foldl npAdd acc).length = n ∧
    ∀ j, (vs.foldl npAdd acc).getD j 0
      = acc.getD j 0 + (vs.map (fun v => v.getD j 0)).sum := by
  induction vs with
  | nil =>
      intro acc hacc _
      exact ⟨hacc, by simp⟩
  | cons v vs ih =>
      intro acc hacc hvs
      have hv : v.length = n := hvs v (by simp)
      have hlen : (npAdd acc v).length = n := by
        rw [length_npAdd, hacc, hv, min_self]
      obtain ⟨h1, h2⟩ := ih (npAdd acc v) hlen (fun w hw => hvs w (by simp [hw]))
      refine ⟨h1, fun j => ?_⟩
      rw [List.foldl_cons, h2 j, getD_npAdd acc v (by rw [hacc, hv]) j]
      simp [add_assoc]

lemma npReduceAdd_spec (vs : List NDArray) (n : ℕ) (hne : vs ≠ [])
    (h : ∀ v ∈ vs, v.length = n) :
    (npReduceAdd vs).length = n ∧
    ∀ j, (npReduceAdd vs).getD j 0 = (vs.map (fun v => v.getD j 0)).sum := by
  match vs, hne with
  | v :: vs, _ =>
      obtain ⟨h1, h2⟩ :=
        foldl_npAdd_spec vs n v (h v (by simp)) (fun w hw => h w (by simp [hw]))
      refine ⟨h1, fun j => ?_⟩
      show (vs.foldl npAdd v).getD j 0 = _
      rw [h2 j]
      simp

lemma map_getD_weighted (results : List (List NDArray × ℕ)) (t T : ℕ)
    (ht : t < T) (hT : ∀ p ∈ results, p.1.length = T) :
    (results.map (fun p => p.1.map (fun layer => layer.map (fun x => x * (p.2 : ℚ))))).map
        (fun w => w.getD t default)
      = results.map (fun p => (p.1.getD t []).map (fun x => x * (p.2 : ℚ))) := by
  rw [List.map_map]
  apply List.map_congr_left
  intro p hp
  simp only [Function.comp_apply]
  exact getD_map_of_lt p.1 _ t default [] (by rw [hT p hp]; exact ht)

lemma aggregate_spec (results : List (List NDArray × ℕ)) (T : ℕ) (shape : ℕ → ℕ)
    (hne : results ≠ [])
    (hT : ∀ p ∈ results, p.1.length = T)
    (hshape : ∀ p ∈ results, ∀ t, t < T → (p.1.getD t []).length = shape t) :
    (aggregate results).length = T ∧
    ∀ t, t < T → ∀ j,
      ((aggregate results).getD t []).getD j 0
        = (results.map (fun p => ((p.1.getD t []).getD j 0) * (p.2 : ℚ))).sum
          / (((results.map Prod.snd).sum : ℕ) : ℚ) := by
  have hWmem : ∀ w ∈ results.map
      (fun p => p.1.map (fun layer => layer.map (fun x => x * (p.2 : ℚ)))),
      w.length = T := by
    intro w hw
    obtain ⟨p, hp, rfl⟩ := List.mem_map.1 hw
    simpa using hT p hp
  have hWne : results.map
      (fun p => p.1.map (fun layer => layer.map (fun x => x * (p.2 : ℚ)))) ≠ [] := by
    simpa using hne
  have hagg : aggregate results
      = (List.range T).map (fun t =>
          npDivScalar (npReduceAdd (results.map
            (fun p => (p.1.getD t []).map (fun x => x * (p.2 : ℚ)))))
            ((((results.map Prod.snd).sum : ℕ) : ℚ))) := by
    show (pyZip _).map _ = _
    rw [pyZip_uniform _ T hWne hWmem, List.map_map]
    apply List.map_congr_left
    intro t ht
    have ht2 : t < T := List.mem_range.1 ht
    simp only [Function.comp_apply]
    rw [map_getD_weighted results t T ht2 hT]
  constructor
  · rw [hagg]
    simp
  · intro t ht j
    have hr : (List.range T).getD t 0 = t := by
      rw [List.getD_eq_getElem?_getD, List.getElem?_range ht]
      rfl
    have hget : (aggregate results).getD t []
        = npDivScalar (npReduceAdd (results.map
            (fun p => (p.1.getD t []).map (fun x => x * (p.2 : ℚ)))))
            ((((results.map Prod.snd).sum : ℕ) : ℚ)) := by
      rw [hagg, getD_map_of_lt (List.range T) _ t [] 0 (by simpa using ht), hr]
    rw [hget, getD_npDivScalar]
    congr 1
    have hlu : ∀ v ∈ results.map
        (fun p => (p.1.getD t []).map (fun x => x * (p.2 : ℚ))),
        v.length = shape t := by
      intro v hv
      obtain ⟨p, hp, rfl⟩ := List.mem_map.1 hv
      simpa using hshape p hp t ht
    obtain ⟨_, h2⟩ := npReduceAdd_spec _ (shape t) (by simpa using hne) hlu
    rw [h2 j, List.map_map]
    congr 1
    apply List.map_congr_left
    intro p hp
    simp only [Function.comp_apply]
    exact getD_map_mul (p.1.getD t []) (p.2 : ℚ) j

/-- C1: for non-empty `results` whose clients all report `T` tensors with
matching per-tensor shapes, with no failures (or failures accepted) and a
positive total example count, `aggregate_fit` returns the aggregated
arrays re-encoded in the wire format as a non-null parameter set paired
with an empty metrics mapping, and that aggregate equals, at every tensor
position, the example-count-weighted average of the client arrays. -/
theorem aggregate_fit_weighted_average (s : FedAvgAndroidSave) (r : ℕ)
    (results : List (ClientProxy × FitRes)) (failures : List Failure)
    (T : ℕ) (shape : ℕ → ℕ)
    (hne : results ≠ [])
    (hacc : failures = [] ∨ s.accept_failures = true)
    (hT : ∀ p ∈ results, p.2.parameters.tensors.length = T)
    (hshape : ∀ p ∈ results, ∀ t, t < T →
      (p.2.parameters.tensors.getD t []).length = shape t)
    (htotal : 0 < (results.map (fun p => p.2.num_examples)).sum) :
    ∃ tr : SaveTrace,
      aggregate_fit s r results failures (.ok ())
        = .ok ((some (ndarrays_to_parameters (aggregate (weights_results results))),
            []), some tr)
    ∧ (aggregate (weights_results results)).length = T
    ∧ ∀ t, t < T → ∀ j,
        ((aggregate (weights_results results)).getD t []).getD j 0
          = weightedAvgAt (weights_results results) t j := by
  have hcond : ¬(s.accept_failures = false ∧ failures ≠ []) := by
    rintro ⟨hf, hnf⟩
    rcases hacc with h | h
    · exact hnf h
    · rw [h] at hf
      exact Bool.noConfusion hf
  have hne2 : weights_results results ≠ [] := by
    simpa [weights_results] using hne
  have hT2 : ∀ p ∈ weights_results results, p.1.length = T := by
    intro p hp
    obtain ⟨q, hq, rfl⟩ := List.mem_map.1 hp
    simpa [parameters_to_ndarrays] using hT q hq
  have hshape2 : ∀ p ∈ weights_results results, ∀ t, t < T →
      (p.1.getD t []).length = shape t := by
    intro p hp
    obtain ⟨q, hq, rfl⟩ := List.mem_map.1 hp
    simpa [parameters_to_ndarrays] using hshape q hq
  obtain ⟨hlen, helem⟩ := aggregate_spec (weights_results results) T shape hne2 hT2 hshape2
  have hsp : ∃ tr : SaveTrace,
      save_params s (aggregate (weights_results results)) (.ok ()) = .ok tr := by
    cases hm : s.model with
    | none => exact ⟨⟨false, false⟩, by simp [save_params, hm]⟩
    | some m => exact ⟨⟨true, false⟩, by simp [save_params, hm]⟩
  obtain ⟨tr, htr⟩ := hsp
  refine ⟨tr, ?_, hlen, ?_⟩
  · simp only [weights_results] at htr
    simp only [aggregate_fit, if_neg hne, if_neg hcond, htr, weights_results]
  · intro t ht j
    rw [helem t ht j]
    unfold weightedAvgAt
    congr 1
    congr 1
    apply List.map_congr_left
    intro p hp
    exact mul_comm _ _

/-- Witness for C1 on `resultsExample`: two clients, one tensor of two
entries, weighted average (1*1 + 3*4)/4 = 13/4 and (1*2 + 3*8)/4 = 13/2. -/
theorem aggregate_fit_weighted_average_witness :
    resultsExample ≠ []
  ∧ (∃ tr : SaveTrace,
      aggregate_fit ⟨true, none⟩ 1 resultsExample [] (.ok ())
        = .ok ((some (ndarrays_to_parameters (aggregate (weights_results resultsExample))),
            []), some tr)
    ∧ (aggregate (weights_results resultsExample)).length = 1
    ∧ ∀ t, t < 1 → ∀ j,
        ((aggregate (weights_results resultsExample)).getD t []).getD j 0
          = weightedAvgAt (weights_results resultsExample) t j)
  ∧ aggregate (weights_results resultsExample) = [[13/4, 13/2]] :=
  ⟨by decide,
   aggregate_fit_weighted_average ⟨true, none⟩ 1 resultsExample [] 1 (fun _ => 2)
     (by decide) (Or.inl rfl) (by decide) (by decide) (by decide),
   by
     simp [resultsExample, weights_results, parameters_to_ndarrays, aggregate,
       pyZip, npReduceAdd, npAdd, npDivScalar, List.range_succ]
     norm_num⟩
